import Mathlib

/-!
Shallow embedding of the `HierarchyNode` class from
`hierarchical-node-structure` (src/src/index.ts, with the published build
src/lib/index.js), together with proofs of the specification's claims.

The TypeScript class is mutable; here a node is an immutable rose tree and
every mutating method returns the updated receiver alongside its original
return value.  `α` stands for the metadata type (the class is generic in
`T`/`B`; below the top level the tree is homogeneous, so one parameter
suffices).
-/

/-- A `HierarchyNode`: internal id, optional parent id, optional metadata,
and the ordered list of children. -/
inductive HNode (α : Type) : Type where
  | mk (internalId : String) (parentId : Option String)
       (metadata : Option α) (children : List (HNode α))

variable {α : Type}

def HNode.internalId : HNode α → String
  | .mk i _ _ _ => i

def HNode.parentId : HNode α → Option String
  | .mk _ p _ _ => p

def HNode.metadata : HNode α → Option α
  | .mk _ _ m _ => m

def HNode.children : HNode α → List (HNode α)
  | .mk _ _ _ cs => cs

mutual
/-- `getNodeById` (src/src/index.ts:71-78): check the receiver, then each
child's subtree in order, returning the first hit. -/
def getNodeById : HNode α → String → Option (HNode α)
  | .mk i p m cs, t =>
    if i = t then some (.mk i p m cs) else getForest cs t

/-- The `for (const child of this.children)` loop of `getNodeById`. -/
def getForest : List (HNode α) → String → Option (HNode α)
  | [], _ => none
  | c :: cs, t =>
    match getNodeById c t with
    | some r => some r
    | none => getForest cs t
end

/-- JavaScript's logical `&&` on the numbers occurring here: `0` is the only
falsy value, and `a && b` yields `a` when `a` is falsy, else `b`. -/
def jsAnd (a b : Nat) : Nat := if a = 0 then 0 else b

/-- JavaScript's logical `||` on the numbers occurring here: `a || b` yields
`b` when `a` is falsy (zero), else `a`. -/
def jsOr (a b : Nat) : Nat := if a = 0 then b else a

/-- The template string of `generateUniqueID`. -/
def uuidTemplate : List Char := "xxxxxxxx-xxxx-4xxx-yxxx-xxxxxxxxxxxx".data

/-- The `.replace(/[xy]/g, cb)` of `generateUniqueID` in src/src/index.ts:
each matched `x`/`y` consumes the next random draw `ds k` (the value
`Math.floor(Math.random() * 16)`, so `ds k < 16`); other characters are kept
and consume no draw.  For `x` the digit is `r`; for `y` it is
`(r && 0x3) || 0x8` with JavaScript's *logical* operators, as written in the
TypeScript source. -/
def replaceXY (ds : Nat → Nat) : List Char → Nat → List Char
  | [], _ => []
  | c :: cs, k =>
    if c = 'x' then Nat.digitChar (ds k) :: replaceXY ds cs (k + 1)
    else if c = 'y' then
      Nat.digitChar (jsOr (jsAnd (ds k) 3) 8) :: replaceXY ds cs (k + 1)
    else c :: replaceXY ds cs k

/-- `generateUniqueID` (src/src/index.ts:49-55), as a function of the stream
of random draws. -/
def generateUniqueID (ds : Nat → Nat) : String :=
  ⟨replaceXY ds uuidTemplate 0⟩

/-- The replacement loop of `generateUniqueID` as compiled in
src/lib/index.js, where the `y` digit is the *bitwise* `(r & 0x3 | 0x8)`. -/
def replaceXYLib (ds : Nat → Nat) : List Char → Nat → List Char
  | [], _ => []
  | c :: cs, k =>
    if c = 'x' then Nat.digitChar (ds k) :: replaceXYLib ds cs (k + 1)
    else if c = 'y' then
      Nat.digitChar (Nat.lor (Nat.land (ds k) 3) 8) :: replaceXYLib ds cs (k + 1)
    else c :: replaceXYLib ds cs k

/-- `generateUniqueID` as compiled in src/lib/index.js:28-33. -/
def generateUniqueIDLib (ds : Nat → Nat) : String :=
  ⟨replaceXYLib ds uuidTemplate 0⟩

/-- `addNode` (src/src/index.ts:61-64): sets the child's `parentId` to the
receiver's id and pushes it onto `children`; returns the updated receiver.
(In the source the same child object is mutated in place; here the updated
child is the appended element.) -/
def addNode : HNode α → HNode α → HNode α
  | .mk i p m cs, c => .mk i p m (cs ++ [.mk c.internalId (some i) c.metadata c.children])

mutual
/-- `removeNodeById` (src/src/index.ts:85-95): the receiver delegates to the
loop over its children; returns the updated receiver and the boolean result. -/
def removeNodeById : HNode α → String → HNode α × Bool
  | .mk i p m cs, t =>
    let r := removeForest cs t
    (.mk i p m r.1, r.2)

/-- The `for (let i = 0; ...)` loop of `removeNodeById`: for each child in
order, splice it out if its id matches, otherwise recurse into it; move on
to the next child only if both fail.  The element carried on after a failed
recursive call is the call's post-state, as with in-place mutation. -/
def removeForest : List (HNode α) → String → List (HNode α) × Bool
  | [], _ => ([], false)
  | c :: cs, t =>
    if c.internalId = t then (cs, true)
    else
      let rc := removeNodeById c t
      if rc.2 then (rc.1 :: cs, true)
      else
        let rs := removeForest cs t
        (rc.1 :: rs.1, rs.2)
end

mutual
/-- `addNodeToNode` (src/src/index.ts:103-110): `getNodeById` followed by an
in-place `addNode` on the alias it returns.  Here the search and the update
are fused: the update is applied at the first node found in `getNodeById`'s
search order (receiver first, then each child's subtree in order). -/
def addNodeToNode : HNode α → String → HNode α → HNode α × Bool
  | .mk i p m cs, t, child =>
    if i = t then (addNode (.mk i p m cs) child, true)
    else
      let r := addForest cs t child
      (.mk i p m r.1, r.2)

/-- The child loop underlying `addNodeToNode`'s search. -/
def addForest : List (HNode α) → String → HNode α → List (HNode α) × Bool
  | [], _, _ => ([], false)
  | c :: cs, t, child =>
    let rc := addNodeToNode c t child
    if rc.2 then (rc.1 :: cs, true)
    else
      let rs := addForest cs t child
      (rc.1 :: rs.1, rs.2)
end

/-- `runCustomFunction` (src/src/index.ts:120-122): pure delegation to the
callback.  Side effects of the TypeScript callback are modelled by threading
an explicit state `S` through it. -/
def runCustomFunction {P S R : Type} (n : HNode α)
    (callback : HNode α → P → S → R × S) (params : P) (s : S) : R × S :=
  callback n params s

/-- `runFunctionOnNode` (src/src/index.ts:134-141): look up `targetId`; if
found, run the callback on the target via `runCustomFunction`, discarding
its return value (only the state it leaves behind survives), and return
`true`; otherwise return `false`. -/
def runFunctionOnNode {P S R : Type} (n : HNode α) (t : String)
    (callback : HNode α → P → S → R × S) (params : P) (s : S) : Bool × S :=
  match getNodeById n t with
  | some target => (true, (runCustomFunction target callback params s).2)
  | none => (false, s)

/-- `getParentNodeId` (src/src/index.ts:148-151):
`target && target.parentId ? target.parentId : null`.  The empty string is
falsy in JavaScript, hence the inner test. -/
def getParentNodeId (n : HNode α) (t : String) : Option String :=
  match getNodeById n t with
  | some target =>
    match target.parentId with
    | some pid => if pid = "" then none else some pid
    | none => none
  | none => none

mutual
/-- `traverse` (src/src/index.ts:160-167): fold the reducer over the
receiver, then over each child's subtree in order. -/
def traverse {R : Type} : HNode α → (R → HNode α → R) → R → R
  | .mk i p m cs, reducer, init =>
    traverseForest cs reducer (reducer init (.mk i p m cs))

/-- The child loop of `traverse`. -/
def traverseForest {R : Type} : List (HNode α) → (R → HNode α → R) → R → R
  | [], _, acc => acc
  | c :: cs, reducer, acc => traverseForest cs reducer (traverse c reducer acc)
end

mutual
/-- `getNodeById` with the receiver threaded through explicitly, mirroring
the in-place execution: the second component is the post-call state of the
receiver, rebuilt step by step exactly as the recursion walks it. -/
def getNodeByIdSt : HNode α → String → Option (HNode α) × HNode α
  | .mk i p m cs, t =>
    if i = t then (some (.mk i p m cs), .mk i p m cs)
    else
      let r := getForestSt cs t
      (r.1, .mk i p m r.2)

/-- The child loop of `getNodeByIdSt`, threading the children list. -/
def getForestSt : List (HNode α) → String → Option (HNode α) × List (HNode α)
  | [], _ => (none, [])
  | c :: cs, t =>
    let rc := getNodeByIdSt c t
    match rc.1 with
    | some g => (some g, rc.2 :: cs)
    | none =>
      let rs := getForestSt cs t
      (rs.1, rc.2 :: rs.2)
end

/-- `getParentNodeId` with the receiver threaded through explicitly. -/
def getParentNodeIdSt (n : HNode α) (t : String) : Option String × HNode α :=
  let r := getNodeByIdSt n t
  (match r.1 with
   | some target =>
     match target.parentId with
     | some pid => if pid = "" then none else some pid
     | none => none
   | none => none, r.2)

mutual
/-- Spec §4 and §8: the depth-first pre-order listing of a subtree — the
receiver first, then the children's subtrees left-to-right. -/
def preorder : HNode α → List (HNode α)
  | .mk i p m cs => .mk i p m cs :: preorderForest cs

/-- Pre-order listing of a forest, left-to-right. -/
def preorderForest : List (HNode α) → List (HNode α)
  | [] => []
  | c :: cs => preorder c ++ preorderForest cs
end

mutual
/-- Spec §8: the number of nodes of a subtree. -/
def sizeN : HNode α → Nat
  | .mk _ _ _ cs => 1 + sizeForest cs

/-- Number of nodes of a forest. -/
def sizeForest : List (HNode α) → Nat
  | [] => 0
  | c :: cs => sizeN c + sizeForest cs
end

/-- The ids occurring in a forest, in pre-order. -/
def idsF (l : List (HNode α)) : List String :=
  (preorderForest l).map HNode.internalId

/-- The ids occurring in the subtree rooted at `n`, in pre-order. -/
def preIds (n : HNode α) : List String :=
  (preorder n).map HNode.internalId

/-- The scalar fields of a node: id, parent id and metadata — everything but
the children list. -/
def info (n : HNode α) : String × Option String × Option α :=
  (n.internalId, n.parentId, n.metadata)

/-- The scalar fields of every node of the subtree rooted at `n`, pre-order. -/
def infos (n : HNode α) : List (String × Option String × Option α) :=
  (preorder n).map info

/-- The scalar fields of every node of a forest, in pre-order. -/
def infosF (l : List (HNode α)) : List (String × Option String × Option α) :=
  (preorderForest l).map info

/-- From claim C1's wording: splice out the first *immediate* child whose id
matches, scanning no deeper. -/
def spliceImmediate : List (HNode α) → String → Option (List (HNode α))
  | [], _ => none
  | c :: cs, t =>
    if c.internalId = t then some cs
    else (spliceImmediate cs t).map (c :: ·)

mutual
/-- From claim C1's wording: first scan all immediate children for an id
match; only if none matches, recurse into each child's subtree in order. -/
def removeTwoPhase : HNode α → String → HNode α × Bool
  | .mk i p m cs, t =>
    match spliceImmediate cs t with
    | some cs1 => (.mk i p m cs1, true)
    | none =>
      let r := removeTwoPhaseForest cs t
      (.mk i p m r.1, r.2)

/-- Second phase of `removeTwoPhase`: recurse into each child in order. -/
def removeTwoPhaseForest : List (HNode α) → String → List (HNode α) × Bool
  | [], _ => ([], false)
  | c :: cs, t =>
    let rc := removeTwoPhase c t
    if rc.2 then (rc.1 :: cs, true)
    else
      let rs := removeTwoPhaseForest cs t
      (rc.1 :: rs.1, rs.2)
end

/-- Example tree for claim C1: the id `"x"` occurs both at a grandchild
inside the first child's subtree and at the second immediate child. -/
def c1cex : HNode Nat :=
  .mk "r" none none
    [.mk "a" none none [.mk "x" none (some 0) []], .mk "x" none (some 1) []]

/-- Example tree for claim C3's witness: a chain `r → b → c`. -/
def c3wit : HNode Nat :=
  .mk "r" none none [.mk "b" (some "r") none [.mk "c" (some "b") (some 2) []]]

/-- Example tree for claim C7's witness. -/
def c7wit : HNode Nat := .mk "a" none none [.mk "b" (some "a") (some 3) []]

/-- Example tree for claim C9's witness: the child `"b"` carries a stale
`parentId` `"q"` naming a node that is not in the tree. -/
def c9wit : HNode Nat :=
  .mk "a" none none [.mk "b" (some "q") none [.mk "c" (some "b") none []]]

mutual
/-- Mutual induction principle for `HNode` and forests of nodes. -/
theorem HNode.ind {P : HNode α → Prop} {Q : List (HNode α) → Prop}
    (hmk : ∀ i p m cs, Q cs → P (.mk i p m cs))
    (hnil : Q [])
    (hcons : ∀ c cs, P c → Q cs → Q (c :: cs)) : ∀ n : HNode α, P n
  | .mk i p m cs => hmk i p m cs (HNode.indForest hmk hnil hcons cs)

theorem HNode.indForest {P : HNode α → Prop} {Q : List (HNode α) → Prop}
    (hmk : ∀ i p m cs, Q cs → P (.mk i p m cs))
    (hnil : Q [])
    (hcons : ∀ c cs, P c → Q cs → Q (c :: cs)) : ∀ l : List (HNode α), Q l
  | [] => hnil
  | c :: cs =>
    hcons c cs (HNode.ind hmk hnil hcons c) (HNode.indForest hmk hnil hcons cs)
end

/-- Both halves of the mutual induction principle at once. -/
theorem HNode.indBoth {P : HNode α → Prop} {Q : List (HNode α) → Prop}
    (hmk : ∀ i p m cs, Q cs → P (.mk i p m cs))
    (hnil : Q [])
    (hcons : ∀ c cs, P c → Q cs → Q (c :: cs)) :
    (∀ n : HNode α, P n) ∧ (∀ l : List (HNode α), Q l) :=
  ⟨HNode.ind hmk hnil hcons, HNode.indForest hmk hnil hcons⟩

@[simp] theorem preorderForest_nil : preorderForest ([] : List (HNode α)) = [] := rfl

@[simp] theorem preorderForest_cons (c : HNode α) (cs : List (HNode α)) :
    preorderForest (c :: cs) = preorder c ++ preorderForest cs := by
  simp [preorderForest]

@[simp] theorem preorder_mk (i : String) (p : Option String) (m : Option α)
    (cs : List (HNode α)) :
    preorder (HNode.mk i p m cs) = HNode.mk i p m cs :: preorderForest cs := by
  simp [preorder]

theorem preorderForest_append (l1 l2 : List (HNode α)) :
    preorderForest (l1 ++ l2) = preorderForest l1 ++ preorderForest l2 := by
  induction l1 with
  | nil => simp
  | cons c cs ih => simp [ih]

theorem self_mem_preorder (n : HNode α) : n ∈ preorder n := by
  cases n; simp

@[simp] theorem idsF_nil : idsF ([] : List (HNode α)) = [] := rfl

@[simp] theorem idsF_cons (c : HNode α) (cs : List (HNode α)) :
    idsF (c :: cs) = preIds c ++ idsF cs := by
  simp [idsF, preIds]

@[simp] theorem preIds_mk (i : String) (p : Option String) (m : Option α)
    (cs : List (HNode α)) :
    preIds (HNode.mk i p m cs) = i :: idsF cs := by
  simp [preIds, idsF, HNode.internalId]

theorem idsF_append (l1 l2 : List (HNode α)) :
    idsF (l1 ++ l2) = idsF l1 ++ idsF l2 := by
  simp [idsF, preorderForest_append]

@[simp] theorem infosF_nil : infosF ([] : List (HNode α)) = [] := rfl

@[simp] theorem infosF_cons (c : HNode α) (cs : List (HNode α)) :
    infosF (c :: cs) = infos c ++ infosF cs := by
  simp [infosF, infos]

@[simp] theorem infos_mk (i : String) (p : Option String) (m : Option α)
    (cs : List (HNode α)) :
    infos (HNode.mk i p m cs) = (i, p, m) :: infosF cs := by
  simp [infos, infosF, info, HNode.internalId, HNode.parentId, HNode.metadata]

theorem mem_preIds_iff (n : HNode α) (t : String) :
    t ∈ preIds n ↔ ∃ g ∈ preorder n, g.internalId = t := by
  simp [preIds, List.mem_map, eq_comm]

theorem mem_idsF_iff (l : List (HNode α)) (t : String) :
    t ∈ idsF l ↔ ∃ g ∈ preorderForest l, g.internalId = t := by
  simp [idsF, List.mem_map, eq_comm]

@[simp] theorem HNode.internalId_mk (i : String) (p : Option String)
    (m : Option α) (cs : List (HNode α)) :
    (HNode.mk i p m cs).internalId = i := rfl

@[simp] theorem HNode.parentId_mk (i : String) (p : Option String)
    (m : Option α) (cs : List (HNode α)) :
    (HNode.mk i p m cs).parentId = p := rfl

@[simp] theorem HNode.metadata_mk (i : String) (p : Option String)
    (m : Option α) (cs : List (HNode α)) :
    (HNode.mk i p m cs).metadata = m := rfl

@[simp] theorem HNode.children_mk (i : String) (p : Option String)
    (m : Option α) (cs : List (HNode α)) :
    (HNode.mk i p m cs).children = cs := rfl

theorem getNodeById_mk (i : String) (p : Option String) (m : Option α)
    (cs : List (HNode α)) (t : String) :
    getNodeById (HNode.mk i p m cs) t =
      if i = t then some (HNode.mk i p m cs) else getForest cs t := rfl

theorem getForest_nil (t : String) :
    getForest ([] : List (HNode α)) t = none := rfl

theorem getForest_cons (c : HNode α) (cs : List (HNode α)) (t : String) :
    getForest (c :: cs) t =
      match getNodeById c t with
      | some r => some r
      | none => getForest cs t := rfl

theorem preorder_eq_cons (n : HNode α) :
    preorder n = n :: preorderForest n.children := by
  cases n; simp

theorem preIds_eq_cons (n : HNode α) :
    preIds n = n.internalId :: idsF n.children := by
  cases n; simp

theorem infos_eq_cons (n : HNode α) :
    infos n = info n :: infosF n.children := by
  cases n; simp [info]

theorem map_fst_infos (n : HNode α) : (infos n).map Prod.fst = preIds n := by
  simp [infos, preIds, info, Function.comp_def]

theorem map_fst_infosF (l : List (HNode α)) :
    (infosF l).map Prod.fst = idsF l := by
  simp [infosF, idsF, info, Function.comp_def]

/-- Searching an appended children list searches the two halves in order. -/
theorem getForest_append (l1 l2 : List (HNode α)) (t : String) :
    getForest (l1 ++ l2) t =
      match getForest l1 t with
      | some g => some g
      | none => getForest l2 t := by
  induction l1 with
  | nil => simp [getForest]
  | cons c cs ih =>
    simp only [List.cons_append, getForest, ih]
    cases getNodeById c t <;> simp
    exact ih

/-- `getNodeById` succeeds exactly on the ids present in the subtree. -/
theorem getNodeById_isSome_iff (t : String) :
    (∀ n : HNode α, (getNodeById n t).isSome = true ↔ t ∈ preIds n) ∧
    (∀ l : List (HNode α), (getForest l t).isSome = true ↔ t ∈ idsF l) := by
  refine HNode.indBoth ?_ ?_ ?_
  · intro i p m cs ih
    by_cases h : i = t
    · subst h; simp [getNodeById]
    · simp [getNodeById, h, ih, Ne.symm h]
  · simp [getForest]
  · intro c cs ihc ihl
    simp only [getForest, idsF_cons, List.mem_append]
    cases hg : getNodeById c t with
    | some g => simp [← ihc, hg]
    | none => simp [← ihc, hg, ihl]

theorem getForest_eq_none_iff (l : List (HNode α)) (t : String) :
    getForest l t = none ↔ t ∉ idsF l := by
  rw [← (getNodeById_isSome_iff t).2 l]
  cases getForest l t <;> simp

theorem getNodeById_eq_none_iff (n : HNode α) (t : String) :
    getNodeById n t = none ↔ t ∉ preIds n := by
  rw [← (getNodeById_isSome_iff t).1 n]
  cases getNodeById n t <;> simp

/-- A successful `getNodeById` returns a node of the subtree carrying the
searched id. -/
theorem getNodeById_some_mem (t : String) :
    (∀ n : HNode α, ∀ g, getNodeById n t = some g →
      g.internalId = t ∧ g ∈ preorder n) ∧
    (∀ l : List (HNode α), ∀ g, getForest l t = some g →
      g.internalId = t ∧ g ∈ preorderForest l) := by
  refine HNode.indBoth ?_ ?_ ?_
  · intro i p m cs ih g hg
    by_cases h : i = t
    · simp only [getNodeById, if_pos h] at hg
      cases hg
      exact ⟨h, self_mem_preorder _⟩
    · simp only [getNodeById, if_neg h] at hg
      obtain ⟨h1, h2⟩ := ih g hg
      exact ⟨h1, by simp [h2]⟩
  · intro g hg; simp [getForest] at hg
  · intro c cs ihc ihl g hg
    simp only [getForest] at hg
    cases hc : getNodeById c t with
    | some r =>
      rw [hc] at hg
      cases hg
      obtain ⟨h1, h2⟩ := ihc g hc
      exact ⟨h1, by simp [h2]⟩
    | none =>
      rw [hc] at hg
      obtain ⟨h1, h2⟩ := ihl g hg
      exact ⟨h1, by simp [h2]⟩

@[simp] theorem removeNodeById_mk (i : String) (p : Option String)
    (m : Option α) (cs : List (HNode α)) (t : String) :
    removeNodeById (HNode.mk i p m cs) t =
      (HNode.mk i p m (removeForest cs t).1, (removeForest cs t).2) := by
  simp [removeNodeById]

theorem removeForest_cons (c : HNode α) (cs : List (HNode α)) (t : String) :
    removeForest (c :: cs) t =
      if c.internalId = t then (cs, true)
      else if (removeNodeById c t).2 then ((removeNodeById c t).1 :: cs, true)
      else ((removeNodeById c t).1 :: (removeForest cs t).1, (removeForest cs t).2) := by
  simp [removeForest]

theorem remove_info_root (n : HNode α) (t : String) :
    info (removeNodeById n t).1 = info n := by
  cases n; simp [info]

/-- When `removeNodeById` returns `false`, the tree is untouched. -/
theorem remove_frame (t : String) :
    (∀ n : HNode α, (removeNodeById n t).2 = false → (removeNodeById n t).1 = n) ∧
    (∀ l : List (HNode α), (removeForest l t).2 = false → (removeForest l t).1 = l) := by
  refine HNode.indBoth ?_ ?_ ?_
  · intro i p m cs ih h
    simp only [removeNodeById_mk] at h ⊢
    rw [ih h]
  · intro _; rfl
  · intro c cs ihc ihl
    rw [removeForest_cons]
    by_cases h1 : c.internalId = t
    · rw [if_pos h1]; intro h; cases h
    · rw [if_neg h1]
      by_cases h2 : (removeNodeById c t).2 = true
      · rw [if_pos h2]; intro h; cases h
      · rw [if_neg h2]
        dsimp only
        intro h
        have h2f : (removeNodeById c t).2 = false := by
          revert h2; cases (removeNodeById c t).2 <;> simp
        rw [ihc h2f, ihl h]

/-- `removeNodeById` succeeds exactly on the ids of strict descendants. -/
theorem remove_found_iff (t : String) :
    (∀ n : HNode α, (removeNodeById n t).2 = true ↔ t ∈ idsF n.children) ∧
    (∀ l : List (HNode α), (removeForest l t).2 = true ↔ t ∈ idsF l) := by
  refine HNode.indBoth ?_ ?_ ?_
  · intro i p m cs ih
    simpa using ih
  · simp [removeForest]
  · intro c cs ihc ihl
    rw [removeForest_cons]
    by_cases h1 : c.internalId = t
    · rw [if_pos h1]
      dsimp only
      simp only [idsF_cons, List.mem_append, preIds_eq_cons, List.mem_cons]
      constructor
      · intro _; exact Or.inl (Or.inl h1.symm)
      · intro _; trivial
    · rw [if_neg h1]
      by_cases h2 : (removeNodeById c t).2 = true
      · rw [if_pos h2]
        dsimp only
        simp only [idsF_cons, List.mem_append, preIds_eq_cons, List.mem_cons]
        constructor
        · intro _; exact Or.inl (Or.inr (ihc.mp h2))
        · intro _; trivial
      · rw [if_neg h2]
        dsimp only
        have hc : t ∉ idsF c.children := fun hm => h2 (ihc.mpr hm)
        rw [ihl, idsF_cons, preIds_eq_cons]
        simp only [List.mem_append, List.mem_cons]
        constructor
        · intro hm; exact Or.inr hm
        · rintro ((h | h) | h)
          · exact absurd h.symm h1
          · exact absurd h hc
          · exact h

@[simp] theorem info_fst (n : HNode α) : (info n).1 = n.internalId := rfl

/-- On success, `removeNodeById` excises the scalar records of exactly one
block — the one of the first strict descendant carrying the target id,
together with its whole subtree — out of the pre-order record listing, and
that descendant is a node of the original tree. -/
theorem remove_excision (t : String) :
    (∀ n : HNode α, (removeNodeById n t).2 = true →
      ∃ g ∈ preorderForest n.children, g.internalId = t ∧
        ∃ L R, infosF n.children = L ++ infos g ++ R ∧
          infosF (removeNodeById n t).1.children = L ++ R ∧
          t ∉ L.map Prod.fst) ∧
    (∀ l : List (HNode α), (removeForest l t).2 = true →
      ∃ g ∈ preorderForest l, g.internalId = t ∧
        ∃ L R, infosF l = L ++ infos g ++ R ∧
          infosF (removeForest l t).1 = L ++ R ∧
          t ∉ L.map Prod.fst) := by
  refine HNode.indBoth ?_ ?_ ?_
  · intro i p m cs ih h
    simp only [removeNodeById_mk] at h ⊢
    simpa using ih h
  · intro h; simp [removeForest] at h
  · intro c cs ihc ihl
    rw [removeForest_cons]
    by_cases h1 : c.internalId = t
    · rw [if_pos h1]
      dsimp only
      intro _
      refine ⟨c, ?_, h1, [], infosF cs, ?_, ?_, ?_⟩
      · rw [preorderForest_cons]
        exact List.mem_append_left _ (self_mem_preorder c)
      · simp
      · simp
      · simp
    · rw [if_neg h1]
      by_cases h2 : (removeNodeById c t).2 = true
      · rw [if_pos h2]
        dsimp only
        intro _
        obtain ⟨g, hgmem, hgid, L0, R0, hsplit, hres, hnotin⟩ := ihc h2
        refine ⟨g, ?_, hgid, info c :: L0, R0 ++ infosF cs, ?_, ?_, ?_⟩
        · rw [preorderForest_cons]
          refine List.mem_append_left _ ?_
          rw [preorder_eq_cons]
          exact List.mem_cons_of_mem _ hgmem
        · rw [infosF_cons, infos_eq_cons c, hsplit]
          simp
        · rw [infosF_cons, infos_eq_cons _, remove_info_root, hres]
          simp
        · simp only [List.map_cons, List.mem_cons, info_fst]
          rintro (h | h)
          · exact h1 h.symm
          · exact hnotin h
      · rw [if_neg h2]
        dsimp only
        intro h
        have h2f : (removeNodeById c t).2 = false := by
          revert h2; cases (removeNodeById c t).2 <;> simp
        have hcfix : (removeNodeById c t).1 = c := (remove_frame t).1 c h2f
        obtain ⟨g, hgmem, hgid, L0, R0, hsplit, hres, hnotin⟩ := ihl h
        refine ⟨g, ?_, hgid, infos c ++ L0, R0, ?_, ?_, ?_⟩
        · rw [preorderForest_cons]
          exact List.mem_append_right _ hgmem
        · rw [infosF_cons, hsplit]
          simp
        · rw [hcfix, infosF_cons, hres]
          simp
        · rw [List.map_append, map_fst_infos]
          simp only [List.mem_append]
          rintro (h3 | h3)
          · rw [preIds_eq_cons] at h3
            rcases List.mem_cons.mp h3 with h4 | h4
            · exact h1 h4.symm
            · exact h2 (((remove_found_iff t).1 c).mpr h4)
          · exact hnotin h3

/-- On success, the spliced-out node was an element of the `children` list of
some node of the original tree, and carried the target id. -/
theorem remove_parent_witness (t : String) :
    (∀ n : HNode α, (removeNodeById n t).2 = true →
      ∃ q ∈ preorder n, ∃ g ∈ HNode.children q, g.internalId = t) ∧
    (∀ l : List (HNode α), (removeForest l t).2 = true →
      (∃ g ∈ l, g.internalId = t) ∨
        ∃ q ∈ preorderForest l, ∃ g ∈ HNode.children q, g.internalId = t) := by
  refine HNode.indBoth ?_ ?_ ?_
  · intro i p m cs ih h
    simp only [removeNodeById_mk] at h
    rcases ih h with ⟨g, hg, hid⟩ | ⟨q, hq, g, hg, hid⟩
    · exact ⟨.mk i p m cs, self_mem_preorder _, g, by simpa using hg, hid⟩
    · exact ⟨q, by simp [hq], g, hg, hid⟩
  · intro h; simp [removeForest] at h
  · intro c cs ihc ihl
    rw [removeForest_cons]
    by_cases h1 : c.internalId = t
    · intro _
      exact Or.inl ⟨c, List.mem_cons_self _ _, h1⟩
    · rw [if_neg h1]
      by_cases h2 : (removeNodeById c t).2 = true
      · intro _
        obtain ⟨q, hq, g, hg, hid⟩ := ihc h2
        refine Or.inr ⟨q, ?_, g, hg, hid⟩
        rw [preorderForest_cons]
        exact List.mem_append_left _ hq
      · rw [if_neg h2]
        dsimp only
        intro h
        rcases ihl h with ⟨g, hg, hid⟩ | ⟨q, hq, g, hgg, hid⟩
        · exact Or.inl ⟨g, List.mem_cons_of_mem _ hg, hid⟩
        · refine Or.inr ⟨q, ?_, g, hgg, hid⟩
          rw [preorderForest_cons]
          exact List.mem_append_right _ hq

theorem mem_preorderForest_of_mem {g : HNode α} {l : List (HNode α)}
    (h : g ∈ l) : g ∈ preorderForest l := by
  induction l with
  | nil => cases h
  | cons c cs ih =>
    rw [preorderForest_cons]
    rcases List.mem_cons.mp h with h | h
    · exact List.mem_append_left _ (by subst h; exact self_mem_preorder g)
    · exact List.mem_append_right _ (ih h)

/-- A child of a node of the subtree is itself a node of the subtree. -/
theorem children_mem_preorder :
    (∀ n : HNode α, ∀ q ∈ preorder n, ∀ g ∈ HNode.children q,
      g ∈ preorder n) ∧
    (∀ l : List (HNode α), ∀ q ∈ preorderForest l, ∀ g ∈ HNode.children q,
      g ∈ preorderForest l) := by
  refine HNode.indBoth ?_ ?_ ?_
  · intro i p m cs ih q hq g hg
    rw [preorder_mk] at hq ⊢
    rcases List.mem_cons.mp hq with h | h
    · subst h
      exact List.mem_cons_of_mem _
        (mem_preorderForest_of_mem (by simpa using hg))
    · exact List.mem_cons_of_mem _ (ih q h g hg)
  · intro q hq
    simp at hq
  · intro c cs ihc ihl q hq g hg
    rw [preorderForest_cons] at hq ⊢
    rcases List.mem_append.mp hq with h | h
    · exact List.mem_append_left _ (ihc q h g hg)
    · exact List.mem_append_right _ (ihl q h g hg)

theorem traverse_mk {R : Type} (i : String) (p : Option String) (m : Option α)
    (cs : List (HNode α)) (red : R → HNode α → R) (init : R) :
    traverse (HNode.mk i p m cs) red init =
      traverseForest cs red (red init (HNode.mk i p m cs)) := rfl

theorem traverseForest_nil {R : Type} (red : R → HNode α → R) (acc : R) :
    traverseForest ([] : List (HNode α)) red acc = acc := rfl

theorem traverseForest_cons {R : Type} (c : HNode α) (cs : List (HNode α))
    (red : R → HNode α → R) (acc : R) :
    traverseForest (c :: cs) red acc =
      traverseForest cs red (traverse c red acc) := rfl

/-- `traverse` is the left fold of the reducer over the pre-order listing. -/
theorem traverse_foldl {R : Type} (red : R → HNode α → R) :
    (∀ n : HNode α, ∀ a, traverse n red a = (preorder n).foldl red a) ∧
    (∀ l : List (HNode α), ∀ a, traverseForest l red a = (preorderForest l).foldl red a) := by
  refine HNode.indBoth ?_ ?_ ?_
  · intro i p m cs ih a
    rw [traverse_mk, preorder_mk, List.foldl_cons, ih]
  · intro a
    rw [traverseForest_nil, preorderForest_nil, List.foldl_nil]
  · intro c cs ihc ihl a
    rw [traverseForest_cons, preorderForest_cons, List.foldl_append, ihc, ihl]

/-- The pre-order listing has exactly one entry per node of the subtree. -/
theorem preorder_length :
    (∀ n : HNode α, (preorder n).length = sizeN n) ∧
    (∀ l : List (HNode α), (preorderForest l).length = sizeForest l) := by
  refine HNode.indBoth ?_ ?_ ?_
  · intro i p m cs ih
    simp [sizeN, ih, Nat.add_comm]
  · simp [sizeForest]
  · intro c cs ihc ihl
    simp [sizeForest, ihc, ihl]

@[simp] theorem addNodeToNode_mk (i : String) (p : Option String)
    (m : Option α) (cs : List (HNode α)) (t : String) (child : HNode α) :
    addNodeToNode (HNode.mk i p m cs) t child =
      if i = t then (addNode (HNode.mk i p m cs) child, true)
      else (HNode.mk i p m (addForest cs t child).1, (addForest cs t child).2) := by
  by_cases h : i = t <;> simp [addNodeToNode, h]

theorem addForest_cons (c : HNode α) (cs : List (HNode α)) (t : String)
    (child : HNode α) :
    addForest (c :: cs) t child =
      if (addNodeToNode c t child).2 then ((addNodeToNode c t child).1 :: cs, true)
      else ((addNodeToNode c t child).1 :: (addForest cs t child).1,
            (addForest cs t child).2) := by
  simp [addForest]

/-- The fused search-and-update of `addNodeToNode`: a miss leaves the tree
untouched and reports `false`; a hit reports `true` and, in the updated
tree, the node found under the target id is the old one with `addNode`
applied to it. -/
theorem addNodeToNode_spec (t : String) (child : HNode α) :
    (∀ n : HNode α,
      ((addNodeToNode n t child).2 = false → (addNodeToNode n t child).1 = n) ∧
      ((addNodeToNode n t child).2 = true ↔ t ∈ preIds n) ∧
      (∀ g, getNodeById n t = some g →
        getNodeById (addNodeToNode n t child).1 t = some (addNode g child))) ∧
    (∀ l : List (HNode α),
      ((addForest l t child).2 = false → (addForest l t child).1 = l) ∧
      ((addForest l t child).2 = true ↔ t ∈ idsF l) ∧
      (∀ g, getForest l t = some g →
        getForest (addForest l t child).1 t = some (addNode g child))) := by
  refine HNode.indBoth ?_ ?_ ?_
  · intro i p m cs ih
    by_cases h : i = t
    · refine ⟨?_, ?_, ?_⟩
      · rw [addNodeToNode_mk, if_pos h]
        intro hf; cases hf
      · rw [addNodeToNode_mk, if_pos h]
        simp [h]
      · intro g hg
        rw [getNodeById_mk, if_pos h] at hg
        cases hg
        rw [addNodeToNode_mk, if_pos h]
        dsimp only
        have : addNode (HNode.mk i p m cs) child =
            HNode.mk i p m (cs ++ [HNode.mk child.internalId (some i)
              child.metadata child.children]) := by
          simp [addNode]
        rw [this, getNodeById_mk, if_pos h, ← this]
    · refine ⟨?_, ?_, ?_⟩
      · rw [addNodeToNode_mk, if_neg h]
        dsimp only
        intro hf
        rw [ih.1 hf]
      · rw [addNodeToNode_mk, if_neg h]
        dsimp only
        rw [ih.2.1, preIds_mk, List.mem_cons]
        constructor
        · exact Or.inr
        · rintro (h3 | h3)
          · exact absurd h3.symm h
          · exact h3
      · intro g hg
        rw [getNodeById_mk, if_neg h] at hg
        rw [addNodeToNode_mk, if_neg h]
        dsimp only
        rw [getNodeById_mk, if_neg h]
        exact ih.2.2 g hg
  · refine ⟨fun _ => rfl, by simp [addForest], ?_⟩
    intro g hg
    simp [getForest] at hg
  · intro c cs ihc ihl
    by_cases h2 : (addNodeToNode c t child).2 = true
    · refine ⟨?_, ?_, ?_⟩
      · rw [addForest_cons, if_pos h2]
        intro hf; cases hf
      · rw [addForest_cons, if_pos h2]
        dsimp only
        simp only [idsF_cons, List.mem_append]
        constructor
        · intro _; exact Or.inl (ihc.2.1.mp h2)
        · intro _; trivial
      · intro g hg
        have hsome : (getNodeById c t).isSome = true := by
          rw [(getNodeById_isSome_iff t).1 c]
          exact ihc.2.1.mp h2
        obtain ⟨g0, hg0⟩ := Option.isSome_iff_exists.mp hsome
        rw [getForest_cons, hg0] at hg
        dsimp only at hg
        cases hg
        rw [addForest_cons, if_pos h2]
        dsimp only
        rw [getForest_cons, ihc.2.2 _ hg0]
    · have h2f : (addNodeToNode c t child).2 = false := by
        revert h2; cases (addNodeToNode c t child).2 <;> simp
      have hcfix : (addNodeToNode c t child).1 = c := ihc.1 h2f
      have hnotc : t ∉ preIds c := fun hm => h2 (ihc.2.1.mpr hm)
      have hnone : getNodeById c t = none := (getNodeById_eq_none_iff c t).mpr hnotc
      refine ⟨?_, ?_, ?_⟩
      · rw [addForest_cons, if_neg h2]
        dsimp only
        intro hf
        rw [hcfix, ihl.1 hf]
      · rw [addForest_cons, if_neg h2]
        dsimp only
        rw [ihl.2.1, idsF_cons, List.mem_append]
        constructor
        · exact Or.inr
        · rintro (h3 | h3)
          · exact absurd h3 hnotc
          · exact h3
      · intro g hg
        rw [getForest_cons, hnone] at hg
        dsimp only at hg
        rw [addForest_cons, if_neg h2]
        dsimp only
        rw [hcfix, getForest_cons, hnone]
        dsimp only
        exact ihl.2.2 g hg

/-- The state-threaded `getNodeById` returns the receiver unchanged and the
same result as the plain one. -/
theorem getNodeByIdSt_spec (t : String) :
    (∀ n : HNode α, (getNodeByIdSt n t).2 = n ∧
      (getNodeByIdSt n t).1 = getNodeById n t) ∧
    (∀ l : List (HNode α), (getForestSt l t).2 = l ∧
      (getForestSt l t).1 = getForest l t) := by
  refine HNode.indBoth ?_ ?_ ?_
  · intro i p m cs ih
    by_cases h : i = t
    · constructor <;> simp [getNodeByIdSt, getNodeById, h]
    · constructor <;> simp [getNodeByIdSt, getNodeById, h, ih.1, ih.2]
  · constructor <;> simp [getForestSt, getForest]
  · intro c cs ihc ihl
    constructor
    · rw [getForestSt]
      dsimp only
      rw [ihc.2]
      cases getNodeById c t <;> simp [ihc.1, ihl.1]
    · rw [getForestSt, getForest]
      dsimp only
      rw [ihc.2]
      cases getNodeById c t <;> simp [ihl.2]

theorem info_mem_infos {x m : HNode α} (h : x ∈ preorder m) :
    info x ∈ infos m := by
  simpa [infos] using List.mem_map_of_mem info h

/-- C1 counterexample: on a tree where the target id occurs both at a
grandchild inside the first child's subtree and at the second immediate
child, `removeNodeById` removes the grandchild (leaving both immediate
children in place), while the claimed immediate-children-first order would
splice out the second immediate child. -/
theorem claim1_counterexample :
    removeNodeById c1cex "x" ≠ removeTwoPhase c1cex "x" ∧
    (removeNodeById c1cex "x").1.children.length = 2 ∧
    (removeTwoPhase c1cex "x").1.children.length = 1 := by
  refine ⟨?_, rfl, rfl⟩
  intro h
  have h2 := congrArg (fun z : HNode Nat × Bool => z.1.children.length) h
  have h3 : (2 : Nat) = 1 := h2
  cases h3

/-- C1 (amended): `removeNodeById` searches the receiver's strict
descendants in depth-first pre-order, checking each immediate child and
recursing into that child's subtree before moving on to the next sibling:
it returns `true` iff some strict descendant carries the target id; on
success the pre-order listing of scalar node records loses exactly the
block of the first such node together with its subtree; and the receiver
itself is never examined or removed — its own record is preserved even when
its id matches. -/
theorem claim1_remove_interleaved_preorder (n : HNode α) (t : String) :
    ((removeNodeById n t).2 = true ↔ t ∈ idsF n.children) ∧
    info (removeNodeById n t).1 = info n ∧
    ((removeNodeById n t).2 = true →
      ∃ g ∈ preorderForest n.children, g.internalId = t ∧
        ∃ L R, infosF n.children = L ++ infos g ++ R ∧
          infosF (removeNodeById n t).1.children = L ++ R ∧
          t ∉ L.map Prod.fst) :=
  ⟨(remove_found_iff t).1 n, remove_info_root n t, (remove_excision t).1 n⟩

theorem claim1_witness :
    (removeNodeById c1cex "x").2 = true ∧
    ∃ g ∈ preorderForest c1cex.children, g.internalId = "x" ∧
      ∃ L R, infosF c1cex.children = L ++ infos g ++ R ∧
        infosF (removeNodeById c1cex "x").1.children = L ++ R ∧
        "x" ∉ L.map Prod.fst :=
  ⟨rfl, (claim1_remove_interleaved_preorder c1cex "x").2.2 rfl⟩

/-- C2: in the TypeScript source the `y` slot of the UUID template is
computed with JavaScript's logical operators, `(r && 0x3) || 0x8`, which
yields `8` for a zero draw and `3` for every other draw — so the variant
nibble (position 19) is `'3'` for 15 of the 16 possible draws, never in
`{8, 9, a, b}` except for the zero draw.  The published build
src/lib/index.js uses the bitwise `(r & 0x3 | 0x8)` and does produce a
variant in `{8, 9, a, b}`, as the claim states. -/
theorem claim2_variant_nibble_bug :
    (∀ ds : Nat → Nat, (generateUniqueID ds).data.getD 19 ' ' =
      Nat.digitChar (jsOr (jsAnd (ds 15) 3) 8)) ∧
    (∀ r : Nat, jsOr (jsAnd r 3) 8 = if r = 0 then 8 else 3) ∧
    generateUniqueID (fun _ => 1) = "11111111-1111-4111-3111-111111111111" ∧
    '3' ∉ (['8', '9', 'a', 'b'] : List Char) ∧
    generateUniqueIDLib (fun _ => 1) = "11111111-1111-4111-9111-111111111111" := by
  refine ⟨fun ds => rfl, ?_, rfl, by decide, rfl⟩
  intro r
  by_cases h : r = 0 <;> simp [jsAnd, jsOr, h]

/-- C4 counterexample: when the receiver's own id is also carried by an
immediate child, `removeNodeById` of that id returns `true` and splices the
child out — not `false` with the tree unchanged, as the claim states for
the receiver's own id. -/
theorem claim4_counterexample :
    (removeNodeById (HNode.mk "a" none (none : Option Nat)
        [HNode.mk "a" (some "a") none []]) "a").2 = true ∧
    (removeNodeById (HNode.mk "a" none (none : Option Nat)
        [HNode.mk "a" (some "a") none []]) "a").1 =
      HNode.mk "a" none none [] :=
  ⟨rfl, rfl⟩

/-- C4 (amended): for every id not carried by any strict descendant of the
receiver — in particular for the receiver's own id whenever no strict
descendant shares it — `removeNodeById` returns `false` and the receiver is
returned entirely unchanged (every node's id, parentId, metadata and
children sequence included). -/
theorem claim4_remove_absent (n : HNode α) (t : String)
    (h : t ∉ idsF n.children) :
    removeNodeById n t = (n, false) := by
  have h2 : (removeNodeById n t).2 = false := by
    cases hb : (removeNodeById n t).2
    · rfl
    · exact absurd (((remove_found_iff t).1 n).mp hb) h
  exact Prod.ext ((remove_frame t).1 n h2) h2

theorem claim4_witness :
    removeNodeById (HNode.mk "a" none (none : Option Nat)
        [HNode.mk "b" (some "a") (some 7) []]) "z" =
      (HNode.mk "a" none (none : Option Nat)
        [HNode.mk "b" (some "a") (some 7) []], false) :=
  claim4_remove_absent _ "z" (by decide)

/-- C6: `traverse` returns the left fold of the reducer over the subtree's
nodes listed in depth-first pre-order (receiver first, children
left-to-right, each child's subtree before the next sibling), and that
listing has exactly one entry per node of the subtree. -/
theorem claim6_traverse_preorder_fold {R : Type} (n : HNode α)
    (red : R → HNode α → R) (init : R) :
    traverse n red init = (preorder n).foldl red init ∧
    (preorder n).length = sizeN n :=
  ⟨(traverse_foldl red).1 n init, preorder_length.1 n⟩

/-- C8: `runFunctionOnNode` applies the callback exactly once, to the found
node with the given params, when the target id is present — the state is
transformed by that single application and the callback's return value is
discarded — and returns `true`; when the target is absent it returns
`false` with the state untouched, the callback never applied. -/
theorem claim8_runFunctionOnNode_spec {P S R : Type} (n : HNode α)
    (t : String) (cb : HNode α → P → S → R × S) (prm : P) (s : S) :
    (∀ g, getNodeById n t = some g →
      runFunctionOnNode n t cb prm s = (true, (cb g prm s).2)) ∧
    (getNodeById n t = none → runFunctionOnNode n t cb prm s = (false, s)) := by
  constructor
  · intro g hg
    simp [runFunctionOnNode, runCustomFunction, hg]
  · intro hnone
    simp [runFunctionOnNode, hnone]

theorem claim8_witness :
    runFunctionOnNode
      (HNode.mk "a" none (none : Option Nat) [HNode.mk "b" (some "a") (some 5) []])
      "b"
      (fun g p (log : List (String × Nat)) => ((), log ++ [(g.internalId, p)]))
      7 [] = (true, [("b", 7)]) :=
  (claim8_runFunctionOnNode_spec _ "b" _ 7 []).1
    (HNode.mk "b" (some "a") (some 5) []) rfl

/-- C10: `getNodeById` and `getParentNodeId` are read-only: threading the
receiver through the call exactly as the recursion walks it returns the
receiver unchanged — every node's id, parentId, metadata and children
sequence as before — together with the same results as the plain
functions. -/
theorem claim10_lookups_readonly (n : HNode α) (t : String) :
    (getNodeByIdSt n t).2 = n ∧
    (getNodeByIdSt n t).1 = getNodeById n t ∧
    (getParentNodeIdSt n t).2 = n ∧
    (getParentNodeIdSt n t).1 = getParentNodeId n t := by
  obtain ⟨h2, h1⟩ := (getNodeByIdSt_spec t).1 n
  refine ⟨h2, h1, ?_, ?_⟩
  · simp [getParentNodeIdSt, h2]
  · simp [getParentNodeIdSt, getParentNodeId, h1]

/-- C3 counterexample: the receiver's own id is present in the subtree
rooted at the receiver, and all ids are pairwise distinct, yet
`removeNodeById` of that id returns `false` — a node cannot remove
itself. -/
theorem claim3_counterexample :
    "a" ∈ preIds (HNode.mk "a" none (none : Option Nat) []) ∧
    (preIds (HNode.mk "a" none (none : Option Nat) [])).Nodup ∧
    (removeNodeById (HNode.mk "a" none (none : Option Nat) []) "a").2 = false := by
  refine ⟨?_, ?_, rfl⟩ <;> decide

/-- C3 (amended): on a tree with pairwise distinct ids, for every id
carried by a strict descendant of the receiver, `removeNodeById` returns
`true`, and afterwards neither the removed node's id nor the id of any node
of its former subtree can be found from the receiver — `getNodeById`
returns `null` for all of them. -/
theorem claim3_remove_detaches_subtree (n : HNode α) (t : String)
    (hnd : (preIds n).Nodup) (ht : t ∈ idsF n.children) :
    (removeNodeById n t).2 = true ∧
    ∀ g, getNodeById n t = some g →
      ∀ x, x ∈ preIds g → getNodeById (removeNodeById n t).1 x = none := by
  have htrue : (removeNodeById n t).2 = true := ((remove_found_iff t).1 n).mpr ht
  refine ⟨htrue, ?_⟩
  intro g hget x hx
  obtain ⟨g2, hg2mem, hg2id, L, R, hsplit, hres, hLno⟩ :=
    (remove_excision t).1 n htrue
  obtain ⟨hgid, hgmem⟩ := (getNodeById_some_mem t).1 n g hget
  have hg2mem2 : g2 ∈ preorder n := by
    rw [preorder_eq_cons]
    exact List.mem_cons_of_mem _ hg2mem
  have hndmap : ((preorder n).map HNode.internalId).Nodup := by
    simpa [preIds] using hnd
  have hgg2 : g = g2 :=
    List.inj_on_of_nodup_map hndmap hgmem hg2mem2 (hgid.trans hg2id.symm)
  subst hgg2
  rw [getNodeById_eq_none_iff]
  have hresIds : idsF (removeNodeById n t).1.children =
      L.map Prod.fst ++ R.map Prod.fst := by
    rw [← map_fst_infosF, hres, List.map_append]
  have hsplitIds : idsF n.children =
      L.map Prod.fst ++ preIds g ++ R.map Prod.fst := by
    rw [← map_fst_infosF, hsplit, List.map_append, List.map_append,
      map_fst_infos]
  have hroot : (removeNodeById n t).1.internalId = n.internalId :=
    congrArg Prod.fst (remove_info_root n t)
  rw [preIds_eq_cons, hroot, hresIds]
  rw [preIds_eq_cons, hsplitIds] at hnd
  obtain ⟨hhead, htail⟩ := List.nodup_cons.mp hnd
  obtain ⟨hAB, hC, hABC⟩ := List.nodup_append.mp htail
  obtain ⟨hA, hB, hAdis⟩ := List.nodup_append.mp hAB
  have hxABC : x ∈ L.map Prod.fst ++ preIds g ++ R.map Prod.fst :=
    List.mem_append_left _ (List.mem_append_right _ hx)
  intro hmem
  rcases List.mem_cons.mp hmem with h | h
  · exact hhead (h ▸ hxABC)
  · rcases List.mem_append.mp h with hA2 | hC2
    · exact hAdis hA2 hx
    · exact hABC (List.mem_append_right _ hx) hC2

theorem claim3_witness :
    ((preIds c3wit).Nodup ∧ "b" ∈ idsF c3wit.children) ∧
    (removeNodeById c3wit "b").2 = true ∧
    getNodeById (removeNodeById c3wit "b").1 "b" = none ∧
    getNodeById (removeNodeById c3wit "b").1 "c" = none := by
  have h := claim3_remove_detaches_subtree c3wit "b" (by decide) (by decide)
  refine ⟨⟨by decide, by decide⟩, h.1, ?_, ?_⟩
  · exact h.2 (HNode.mk "b" (some "r") none [HNode.mk "c" (some "b") (some 2) []])
      rfl "b" (by decide)
  · exact h.2 (HNode.mk "b" (some "r") none [HNode.mk "c" (some "b") (some 2) []])
      rfl "c" (by decide)

/-- C5 counterexample: when the child's id collides with the parent's own
id, `getNodeById` after `addNode` returns the parent (metadata `none`), not
the child (metadata `some 1`). -/
theorem claim5_counterexample :
    (getNodeById (addNode (HNode.mk "a" none (none : Option Nat) [])
        (HNode.mk "a" none (some 1) [])) "a").map HNode.metadata =
      some none ∧
    (HNode.mk "a" none (some 1) ([] : List (HNode Nat))).metadata = some 1 :=
  ⟨rfl, rfl⟩

/-- C5 (amended): for every parent and child such that the child's id does
not occur in the parent's subtree, after `addNode` the appended element is
the child with its `parentId` set to the parent's id, it is the last
element of the parent's children, and `getNodeById` on the parent finds
exactly it; the operation itself is total — it has no failure path. -/
theorem claim5_addNode_fresh (p c : HNode α)
    (h : c.internalId ∉ preIds p) :
    (addNode p c).children = p.children ++
      [HNode.mk c.internalId (some p.internalId) c.metadata c.children] ∧
    (addNode p c).children.getLast? =
      some (HNode.mk c.internalId (some p.internalId) c.metadata c.children) ∧
    getNodeById (addNode p c) c.internalId =
      some (HNode.mk c.internalId (some p.internalId) c.metadata c.children) := by
  obtain ⟨i, pp, mm, cs⟩ := p
  have hne : ¬ i = c.internalId := by
    intro he
    exact h (by rw [preIds_mk]; exact List.mem_cons.mpr (Or.inl he.symm))
  have hfresh : c.internalId ∉ idsF cs := fun hm =>
    h (by rw [preIds_mk]; exact List.mem_cons_of_mem _ hm)
  have haddeq : addNode (HNode.mk i pp mm cs) c =
      HNode.mk i pp mm (cs ++
        [HNode.mk c.internalId (some i) c.metadata c.children]) := rfl
  refine ⟨by rw [haddeq]; simp, by rw [haddeq]; simp, ?_⟩
  rw [haddeq, getNodeById_mk, if_neg hne, getForest_append,
    (getForest_eq_none_iff cs c.internalId).mpr hfresh]
  dsimp only
  rw [getForest_cons, getNodeById_mk, if_pos rfl]
  rfl

theorem claim5_witness :
    (addNode (HNode.mk "a" none (none : Option Nat) [])
        (HNode.mk "b" none (some 1) [])).children =
      [HNode.mk "b" (some "a") (some 1) []] ∧
    getNodeById (addNode (HNode.mk "a" none (none : Option Nat) [])
        (HNode.mk "b" none (some 1) [])) "b" =
      some (HNode.mk "b" (some "a") (some 1) []) := by
  have h := claim5_addNode_fresh (HNode.mk "a" none (none : Option Nat) [])
    (HNode.mk "b" none (some 1) []) (by decide)
  exact ⟨by simpa using h.1, h.2.2⟩

/-- C7: `addNodeToNode` returns `false` and performs no mutation when the
target id is absent from the receiver's subtree; when it is present it
returns `true` and attaches the child to the node carrying that id exactly
as a direct `addNode` call would — in the updated tree the node found under
the target id is the old one with the child appended last, its `parentId`
set to that node's id. -/
theorem claim7_addNodeToNode_spec (n : HNode α) (t : String) (c : HNode α) :
    (getNodeById n t = none → addNodeToNode n t c = (n, false)) ∧
    ((addNodeToNode n t c).2 = true ↔ t ∈ preIds n) ∧
    (∀ g, getNodeById n t = some g →
      (addNodeToNode n t c).2 = true ∧
      getNodeById (addNodeToNode n t c).1 t = some (addNode g c) ∧
      (addNode g c).children = g.children ++
        [HNode.mk c.internalId (some g.internalId) c.metadata c.children]) := by
  obtain ⟨hframe, hiff, hupd⟩ := (addNodeToNode_spec t c).1 n
  refine ⟨?_, hiff, ?_⟩
  · intro hnone
    have hnot : t ∉ preIds n := (getNodeById_eq_none_iff n t).mp hnone
    have h2 : (addNodeToNode n t c).2 = false := by
      cases hb : (addNodeToNode n t c).2
      · rfl
      · exact absurd (hiff.mp hb) hnot
    exact Prod.ext (hframe h2) h2
  · intro g hg
    have hsome : t ∈ preIds n := by
      rw [← (getNodeById_isSome_iff t).1 n, hg]
      rfl
    refine ⟨hiff.mpr hsome, hupd g hg, ?_⟩
    obtain ⟨gi, gp, gm, gcs⟩ := g
    rfl

theorem claim7_witness :
    (addNodeToNode c7wit "b" (HNode.mk "c" none (some 9) [])).2 = true ∧
    getNodeById (addNodeToNode c7wit "b" (HNode.mk "c" none (some 9) [])).1 "b" =
      some (addNode (HNode.mk "b" (some "a") (some 3) [])
        (HNode.mk "c" none (some 9) [])) ∧
    addNodeToNode c7wit "z" (HNode.mk "c" none (some 9) []) = (c7wit, false) := by
  have h := (claim7_addNodeToNode_spec c7wit "b" (HNode.mk "c" none (some 9) [])).2.2
    (HNode.mk "b" (some "a") (some 3) []) rfl
  exact ⟨h.1, h.2.1,
    (claim7_addNodeToNode_spec c7wit "z" (HNode.mk "c" none (some 9) [])).1 rfl⟩

/-- C9: `removeNodeById` never writes any node's `parentId`: every node of
the resulting tree has the id, parentId and metadata of a node of the
original tree; the spliced-out node was an element of some original node's
`children` list, dropped without modification — so a detached node keeps
whatever `parentId` it had; and it is `addNode` that overwrites a child's
`parentId`, with the id of the node it is appended to. -/
theorem claim9_remove_never_writes_parentId (n : HNode α) (t : String) :
    (∀ x ∈ preorder (removeNodeById n t).1, ∃ y ∈ preorder n,
      y.internalId = x.internalId ∧ y.parentId = x.parentId ∧
        y.metadata = x.metadata) ∧
    ((removeNodeById n t).2 = true →
      ∃ q ∈ preorder n, ∃ g ∈ HNode.children q,
        g.internalId = t ∧ g ∈ preorder n) ∧
    (∀ p c : HNode α, (addNode p c).children = p.children ++
      [HNode.mk c.internalId (some p.internalId) c.metadata c.children]) := by
  refine ⟨?_, ?_, ?_⟩
  case refine_2 =>
    intro hb
    obtain ⟨q, hq, g, hg, hid⟩ := (remove_parent_witness t).1 n hb
    exact ⟨q, hq, g, hg, hid, children_mem_preorder.1 n q hq g hg⟩
  · intro x hx
    cases hb : (removeNodeById n t).2
    · rw [(remove_frame t).1 n hb] at hx
      exact ⟨x, hx, rfl, rfl, rfl⟩
    · obtain ⟨g2, hg2mem, hg2id, L, R, hsplit, hres, hLno⟩ :=
        (remove_excision t).1 n hb
      have hxin : info x ∈ infos (removeNodeById n t).1 := info_mem_infos hx
      rw [infos_eq_cons, remove_info_root, hres] at hxin
      have hxall : info x ∈ infos n := by
        rw [infos_eq_cons, hsplit]
        rcases List.mem_cons.mp hxin with h | h
        · exact List.mem_cons.mpr (Or.inl h)
        · rcases List.mem_append.mp h with h | h
          · exact List.mem_cons.mpr (Or.inr (List.mem_append_left _
              (List.mem_append_left _ h)))
          · exact List.mem_cons.mpr (Or.inr (List.mem_append_right _ h))
      have : ∃ y ∈ preorder n, info y = info x := by
        simpa [infos, eq_comm] using hxall
      obtain ⟨y, hy, he⟩ := this
      refine ⟨y, hy, ?_, ?_, ?_⟩
      · exact congrArg Prod.fst he
      · exact congrArg (fun z => z.2.1) he
      · exact congrArg (fun z => z.2.2) he
  · intro p c
    obtain ⟨pi, ppp, pm, pcs⟩ := p
    rfl

theorem claim9_witness :
    (removeNodeById c9wit "b").2 = true ∧
    (∃ q ∈ preorder c9wit, ∃ g ∈ HNode.children q,
      g.internalId = "b" ∧ g ∈ preorder c9wit) ∧
    (HNode.mk "b" (some "q") (none : Option Nat)
        [HNode.mk "c" (some "b") none []]).parentId = some "q" := by
  refine ⟨rfl, (claim9_remove_never_writes_parentId c9wit "b").2.1 rfl, rfl⟩

/-- Closed form of the TypeScript `generateUniqueID`: 36 characters, hyphens
separating 8-4-4-4-12 digits, the fixed version digit `'4'`, each `x` slot
the hex digit of its own draw — and the `y` slot computed with the logical
`(r && 0x3) || 0x8`. -/
theorem generateUniqueID_closed_form (ds : Nat → Nat) :
    generateUniqueID ds = ⟨[Nat.digitChar (ds 0), Nat.digitChar (ds 1),
      Nat.digitChar (ds 2), Nat.digitChar (ds 3), Nat.digitChar (ds 4),
      Nat.digitChar (ds 5), Nat.digitChar (ds 6), Nat.digitChar (ds 7), '-',
      Nat.digitChar (ds 8), Nat.digitChar (ds 9), Nat.digitChar (ds 10),
      Nat.digitChar (ds 11), '-', '4', Nat.digitChar (ds 12),
      Nat.digitChar (ds 13), Nat.digitChar (ds 14), '-',
      Nat.digitChar (jsOr (jsAnd (ds 15) 3) 8), Nat.digitChar (ds 16),
      Nat.digitChar (ds 17), Nat.digitChar (ds 18), '-',
      Nat.digitChar (ds 19), Nat.digitChar (ds 20), Nat.digitChar (ds 21),
      Nat.digitChar (ds 22), Nat.digitChar (ds 23), Nat.digitChar (ds 24),
      Nat.digitChar (ds 25), Nat.digitChar (ds 26), Nat.digitChar (ds 27),
      Nat.digitChar (ds 28), Nat.digitChar (ds 29), Nat.digitChar (ds 30)]⟩ :=
  rfl

/-- Closed form of the compiled `generateUniqueID` of src/lib/index.js: the
same layout, with the `y` slot computed with the bitwise `(r & 0x3 | 0x8)`. -/
theorem generateUniqueIDLib_closed_form (ds : Nat → Nat) :
    generateUniqueIDLib ds = ⟨[Nat.digitChar (ds 0), Nat.digitChar (ds 1),
      Nat.digitChar (ds 2), Nat.digitChar (ds 3), Nat.digitChar (ds 4),
      Nat.digitChar (ds 5), Nat.digitChar (ds 6), Nat.digitChar (ds 7), '-',
      Nat.digitChar (ds 8), Nat.digitChar (ds 9), Nat.digitChar (ds 10),
      Nat.digitChar (ds 11), '-', '4', Nat.digitChar (ds 12),
      Nat.digitChar (ds 13), Nat.digitChar (ds 14), '-',
      Nat.digitChar (Nat.lor (Nat.land (ds 15) 3) 8), Nat.digitChar (ds 16),
      Nat.digitChar (ds 17), Nat.digitChar (ds 18), '-',
      Nat.digitChar (ds 19), Nat.digitChar (ds 20), Nat.digitChar (ds 21),
      Nat.digitChar (ds 22), Nat.digitChar (ds 23), Nat.digitChar (ds 24),
      Nat.digitChar (ds 25), Nat.digitChar (ds 26), Nat.digitChar (ds 27),
      Nat.digitChar (ds 28), Nat.digitChar (ds 29), Nat.digitChar (ds 30)]⟩ :=
  rfl

/-- The lib build's variant digit lands in `{8, 9, a, b}` for every draw. -/
theorem digitChar_variant_lib_mem (r : Nat) (h : r < 16) :
    Nat.digitChar (Nat.lor (Nat.land r 3) 8) ∈
      (['8', '9', 'a', 'b'] : List Char) := by
  interval_cases r <;> decide

/-- Every draw below 16 maps to a lowercase hex digit. -/
theorem digitChar_hex_mem (r : Nat) (h : r < 16) :
    Nat.digitChar r ∈ "0123456789abcdef".data := by
  interval_cases r <;> decide

/-- The TypeScript source's variant digit is `'8'` for a zero draw and
`'3'` for every other draw — never `'9'`, `'a'` or `'b'`. -/
theorem generateUniqueID_variant_cases (ds : Nat → Nat) :
    (generateUniqueID ds).data.getD 19 ' ' =
      if ds 15 = 0 then '8' else '3' := by
  have h0 : (generateUniqueID ds).data.getD 19 ' ' =
      Nat.digitChar (jsOr (jsAnd (ds 15) 3) 8) := rfl
  rw [h0]
  by_cases h : ds 15 = 0 <;> simp [jsAnd, jsOr, h] <;> rfl
